import Mathlib

/-
Verification development for the black-hole raytracer.

The C++ source (src/main.cc) is shallowly embedded here over the real
numbers: `double` arithmetic is idealized as ℝ, and each C++ function is
translated into a Lean definition of the same name.  The ray-marching loop
of `traceRay` is translated as a fuel-indexed recursion whose fuel is the
source's fixed step bound (`MAX_RAY_STEPS`); the result record additionally
carries the exit kind, the number of loop iterations executed, the number
of disk-intersection tests performed and the accumulated travel distance,
so that theorems about the integrator's control flow can be stated.

The procedural star/nebula background at the end of `traceRay` depends on
`std::hash<std::string>`, which is implementation defined; the integrator
is therefore parametrized by the background coloring function applied to
the final ray direction.  None of the claims below depend on its value.
-/

set_option maxHeartbeats 1000000

noncomputable section

namespace PhysicsConstants

def SCHWARZSCHILD_MULTIPLIER : ℝ := 2.0

def PHOTON_SPHERE_MULTIPLIER : ℝ := 1.5

def DISK_INNER_MULTIPLIER : ℝ := 3.0

def DISK_OUTER_MULTIPLIER : ℝ := 10.0

end PhysicsConstants

namespace RenderConfig

def MAX_RAY_STEPS : ℕ := 500

def MAX_RAY_DISTANCE : ℝ := 50.0

def ADAPTIVE_STEP_FAR : ℝ := 0.4

def ADAPTIVE_STEP_MEDIUM : ℝ := 0.2

def ADAPTIVE_STEP_NEAR : ℝ := 0.1

def ADAPTIVE_STEP_CLOSE : ℝ := 0.05

end RenderConfig

/-- 3D vector with real components, embedding the C++ `Vec3` class. -/
structure Vec3 where
  x : ℝ
  y : ℝ
  z : ℝ

namespace Vec3

/-- The default constructor `Vec3()`. -/
def zero : Vec3 := ⟨0, 0, 0⟩

def add (a b : Vec3) : Vec3 := ⟨a.x + b.x, a.y + b.y, a.z + b.z⟩

def sub (a b : Vec3) : Vec3 := ⟨a.x - b.x, a.y - b.y, a.z - b.z⟩

/-- `operator*(double scalar)`. -/
def smul (a : Vec3) (scalar : ℝ) : Vec3 := ⟨a.x * scalar, a.y * scalar, a.z * scalar⟩

/-- `operator/(double scalar)`: returns the zero vector for a near-zero divisor. -/
def div (a : Vec3) (scalar : ℝ) : Vec3 :=
  if |scalar| < 1e-10 then zero else ⟨a.x / scalar, a.y / scalar, a.z / scalar⟩

def dot (a b : Vec3) : ℝ := a.x * b.x + a.y * b.y + a.z * b.z

def cross (a b : Vec3) : Vec3 :=
  ⟨a.y * b.z - a.z * b.y, a.z * b.x - a.x * b.z, a.x * b.y - a.y * b.x⟩

def length (a : Vec3) : ℝ := Real.sqrt (a.x * a.x + a.y * a.y + a.z * a.z)

def lengthSquared (a : Vec3) : ℝ := a.x * a.x + a.y * a.y + a.z * a.z

/-- `normalize()`: returns the zero vector when the length is at most `1e-10`. -/
def normalize (a : Vec3) : Vec3 :=
  if a.length > 1e-10 then a.div a.length else zero

def distanceTo (a b : Vec3) : ℝ := (a.sub b).length

end Vec3

/-- RGB color with real components, embedding the C++ `Color` class. -/
structure Color where
  r : ℝ
  g : ℝ
  b : ℝ

namespace Color

def add (c o : Color) : Color := ⟨c.r + o.r, c.g + o.g, c.b + o.b⟩

/-- `operator*(double scalar)`. -/
def smul (c : Color) (scalar : ℝ) : Color := ⟨c.r * scalar, c.g * scalar, c.b * scalar⟩

/-- Component-wise `operator*(const Color&)`. -/
def mul (c o : Color) : Color := ⟨c.r * o.r, c.g * o.g, c.b * o.b⟩

end Color

/-- The C++ `BlackHole` class: a position and a mass.  The radii stored by the
constructor are derived quantities of these two fields and are embedded as the
functions below. -/
structure BlackHole where
  position : Vec3
  mass : ℝ

namespace BlackHole

/-- `schwarzschildRadius_ = SCHWARZSCHILD_MULTIPLIER * mass_`. -/
def schwarzschildRadius (bh : BlackHole) : ℝ :=
  PhysicsConstants.SCHWARZSCHILD_MULTIPLIER * bh.mass

/-- `diskInnerRadius_ = DISK_INNER_MULTIPLIER * schwarzschildRadius_`. -/
def diskInnerRadius (bh : BlackHole) : ℝ :=
  PhysicsConstants.DISK_INNER_MULTIPLIER * bh.schwarzschildRadius

/-- `diskOuterRadius_ = DISK_OUTER_MULTIPLIER * schwarzschildRadius_`. -/
def diskOuterRadius (bh : BlackHole) : ℝ :=
  PhysicsConstants.DISK_OUTER_MULTIPLIER * bh.schwarzschildRadius

/-- `BlackHole::applyGravitationalLensing`, translated branch for branch. -/
def applyGravitationalLensing (bh : BlackHole) (rayPosition rayDirection : Vec3) : Vec3 :=
  let displacement := rayPosition.sub bh.position
  let distance := displacement.length
  if distance < bh.schwarzschildRadius * PhysicsConstants.PHOTON_SPHERE_MULTIPLIER then
    if distance < bh.schwarzschildRadius then
      rayDirection
    else
      let deflectionFactor := 1.0 / (distance - bh.schwarzschildRadius)
      let towardCenter := (bh.position.sub rayPosition).normalize
      (rayDirection.add (towardCenter.smul (deflectionFactor * 0.1))).normalize
  else if distance > bh.schwarzschildRadius * 10.0 then
    rayDirection
  else
    let deflectionAngle := 2.0 * bh.mass / (distance * distance)
    let towardCenter := (bh.position.sub rayPosition).normalize
    let perpendicular := ((rayDirection.cross towardCenter).cross rayDirection).normalize
    (rayDirection.add (perpendicular.smul (deflectionAngle * 0.1))).normalize

/-- `BlackHole::intersectsAccretionDisk`.  The C++ out-parameter is embedded by
returning `some intersectionPoint` in place of `true`. -/
def intersectsAccretionDisk (bh : BlackHole) (rayOrigin rayDirection : Vec3) : Option Vec3 :=
  if |rayDirection.y| < 1e-6 then
    none
  else
    let intersectionTime := (bh.position.y - rayOrigin.y) / rayDirection.y
    if intersectionTime < 0.0 ∨ intersectionTime > 2.0 then
      none
    else
      let intersectionPoint := rayOrigin.add (rayDirection.smul intersectionTime)
      let distanceFromCenter := Real.sqrt ((intersectionPoint.x - bh.position.x) ^ 2 +
        (intersectionPoint.z - bh.position.z) ^ 2)
      if distanceFromCenter ≥ bh.diskInnerRadius ∧ distanceFromCenter ≤ bh.diskOuterRadius then
        some intersectionPoint
      else
        none

/-- The radial distance from the hole's vertical axis used by
`calculateAccretionDiskColor`. -/
def diskDistanceFromCenter (bh : BlackHole) (point : Vec3) : ℝ :=
  Real.sqrt ((point.x - bh.position.x) ^ 2 + (point.z - bh.position.z) ^ 2)

/-- The clamped temperature computed at the start of
`calculateAccretionDiskColor`: `min(1.0, max(0.1, 1.0 / (d / Rs)))`. -/
def diskTemperature (bh : BlackHole) (point : Vec3) : ℝ :=
  min 1.0 (max 0.1 (1.0 / (bh.diskDistanceFromCenter point / bh.schwarzschildRadius)))

/-- `BlackHole::calculateAccretionDiskColor`.  `atan2(y, x)` is embedded as the
argument of the complex number `x + y i`. -/
def calculateAccretionDiskColor (bh : BlackHole) (point : Vec3) : Color :=
  let distanceFromCenter := bh.diskDistanceFromCenter point
  let orbitalVelocity := Real.sqrt (bh.mass / distanceFromCenter)
  let dopplerFactor := 1.0 + orbitalVelocity * 0.1
  let angle := Complex.arg ⟨point.x - bh.position.x, point.z - bh.position.z⟩
  let turbulence := Real.sin (angle * 8.0 + distanceFromCenter * 2.0) * 0.15 + 1.0
  let temperature := bh.diskTemperature point * turbulence
  let baseColor : Color :=
    if temperature > 0.8 then ⟨1.0, 0.95, 0.8⟩
    else if temperature > 0.6 then ⟨1.0, 0.8, 0.4⟩
    else if temperature > 0.4 then ⟨1.0, 0.6, 0.2⟩
    else ⟨0.8, 0.3, 0.1⟩
  (baseColor.smul temperature).smul dopplerFactor

end BlackHole

/-- The adaptive step size block at the top of the `traceRay` loop body. -/
def stepSizeFor (bh : BlackHole) (distanceToBlackHole : ℝ) : ℝ :=
  if distanceToBlackHole > bh.schwarzschildRadius * 8.0 then RenderConfig.ADAPTIVE_STEP_FAR
  else if distanceToBlackHole > bh.schwarzschildRadius * 5.0 then RenderConfig.ADAPTIVE_STEP_MEDIUM
  else if distanceToBlackHole > bh.schwarzschildRadius * 2.0 then RenderConfig.ADAPTIVE_STEP_NEAR
  else RenderConfig.ADAPTIVE_STEP_CLOSE

/-- How a run of the `traceRay` marching loop ended: fell past the event
horizon, hit the accretion disk (recording the intersection point and the
marching position at the time of the hit), or fell through to the
procedural background (loop exhausted, distance budget exceeded, or fuel
spent). -/
inductive ExitKind where
  | horizon : ExitKind
  | diskHit : Vec3 → Vec3 → ExitKind
  | background : ExitKind

/-- Result of `traceRay`, instrumented with control-flow observations. -/
structure TraceResult where
  color : Color
  exitKind : ExitKind
  stepsTaken : ℕ
  diskTests : ℕ
  totalDistance : ℝ

/-- The disk test at the top of the loop body of `traceRay`: the
intersection point, provided `intersectsAccretionDisk` succeeded and the hit
lies within `stepSize * 2.0` of the current position (the "close enough to
disk" re-check). -/
def closeDiskHit (bh : BlackHole) (currentPosition direction : Vec3) (stepSize : ℝ) :
    Option Vec3 :=
  match bh.intersectsAccretionDisk currentPosition direction with
  | some intersectionPoint =>
      if currentPosition.distanceTo intersectionPoint < stepSize * 2.0 then
        some intersectionPoint
      else
        none
  | none => none

/-- The `for (int step = 0; step < MAX_RAY_STEPS; ++step)` loop of `traceRay`,
as a recursion on the remaining iteration count.  `step` is the current loop
index, so the fuel at entry is `MAX_RAY_STEPS` and the invariant
`fuel + step = MAX_RAY_STEPS` holds along the real call chain. -/
def traceRayLoop (bh : BlackHole) (background : Vec3 → Color) :
    ℕ → ℕ → Vec3 → Vec3 → ℝ → ℕ → TraceResult
  | 0, step, _currentPosition, direction, totalDistance, diskTests =>
      ⟨background direction, ExitKind.background, step, diskTests, totalDistance⟩
  | n + 1, step, currentPosition, direction, totalDistance, diskTests =>
      let distanceToBlackHole := currentPosition.distanceTo bh.position
      let stepSize := stepSizeFor bh distanceToBlackHole
      if distanceToBlackHole < bh.schwarzschildRadius * 1.01 then
        ⟨⟨0, 0, 0⟩, ExitKind.horizon, step, diskTests, totalDistance⟩
      else
        match closeDiskHit bh currentPosition direction stepSize with
        | some intersectionPoint =>
            let diskColor := bh.calculateAccretionDiskColor intersectionPoint
            let hitDistance := currentPosition.distanceTo intersectionPoint
            let intensity := 1.0 + 0.5 / (1.0 + hitDistance)
            let distToCenter := currentPosition.distanceTo bh.position
            let litColor :=
              if distToCenter < bh.schwarzschildRadius * 4.0 then
                let flareStrength := 1.0 / (1.0 + (distToCenter - bh.schwarzschildRadius))
                diskColor.add ((Color.smul ⟨0.8, 0.9, 1.0⟩ flareStrength).smul 0.3)
              else
                diskColor
            ⟨litColor.smul intensity, ExitKind.diskHit intersectionPoint currentPosition,
              step, diskTests + 1, totalDistance⟩
        | none =>
            let direction2 :=
              if step % 3 = 0 then bh.applyGravitationalLensing currentPosition direction
              else direction
            let position2 := currentPosition.add (direction2.smul stepSize)
            let totalDistance2 := totalDistance + stepSize
            if totalDistance2 > RenderConfig.MAX_RAY_DISTANCE then
              ⟨background direction2, ExitKind.background, step + 1, diskTests + 1,
                totalDistance2⟩
            else
              traceRayLoop bh background n (step + 1) position2 direction2 totalDistance2
                (diskTests + 1)

/-- `traceRay(origin, direction, bh)`, instrumented.  The returned `color`
field is the color the C++ function returns. -/
def traceRay (bh : BlackHole) (background : Vec3 → Color) (origin direction : Vec3) :
    TraceResult :=
  traceRayLoop bh background RenderConfig.MAX_RAY_STEPS 0 origin direction 0.0 0

/-- The `int(...)` cast applied by `render` to each channel: C++ conversion
from `double` to `int` truncates toward zero. -/
def cppIntOfReal (x : ℝ) : ℤ :=
  if 0 ≤ x then ⌊x⌋ else -⌊-x⌋

/-- The integer sample `render` writes for a finished channel value `c`:
`int(c * 255)`. -/
def renderByteSample (c : ℝ) : ℤ :=
  cppIntOfReal (c * 255)

-- ===========================================================================
-- Helper lemmas
-- ===========================================================================

theorem sqrt_eq_of_eq_sq {a b : ℝ} (hb : 0 ≤ b) (h : a = b ^ 2) : Real.sqrt a = b := by
  rw [h]
  exact Real.sqrt_sq hb

theorem Vec3.length_eq {v : Vec3} {L : ℝ} (hL : 0 ≤ L)
    (h : v.x * v.x + v.y * v.y + v.z * v.z = L ^ 2) : v.length = L := by
  unfold Vec3.length
  exact sqrt_eq_of_eq_sq hL h

theorem Vec3.normalize_eq {v : Vec3} {L : ℝ} (h : v.length = L) (hL : (1e-10 : ℝ) < L) :
    v.normalize = ⟨v.x / L, v.y / L, v.z / L⟩ := by
  have hLpos : (0 : ℝ) < L := lt_trans (by norm_num) hL
  have habs : ¬ |L| < 1e-10 := by
    rw [abs_of_pos hLpos]
    exact not_lt.mpr hL.le
  unfold Vec3.normalize Vec3.div
  rw [h, if_pos hL, if_neg habs]

theorem Vec3.normalize_length {v : Vec3} (h : (1e-10 : ℝ) < v.length) :
    v.normalize.length = 1 := by
  have hS : 0 ≤ v.x * v.x + v.y * v.y + v.z * v.z :=
    add_nonneg (add_nonneg (mul_self_nonneg _) (mul_self_nonneg _)) (mul_self_nonneg _)
  have hLpos : (0 : ℝ) < v.length := lt_trans (by norm_num) h
  have hL2 : v.length * v.length = v.x * v.x + v.y * v.y + v.z * v.z := by
    simpa [Vec3.length] using Real.mul_self_sqrt hS
  rw [Vec3.normalize_eq rfl h]
  show Real.sqrt (v.x / v.length * (v.x / v.length) + v.y / v.length * (v.y / v.length) +
    v.z / v.length * (v.z / v.length)) = 1
  have hne : v.length ≠ 0 := ne_of_gt hLpos
  have hsum : v.x / v.length * (v.x / v.length) + v.y / v.length * (v.y / v.length) +
      v.z / v.length * (v.z / v.length) = 1 := by
    field_simp
    linarith [hL2]
  rw [hsum, Real.sqrt_one]

theorem Vec3.normalize_unit_or_zero (v : Vec3) :
    v.normalize.length = 1 ∨ v.normalize = Vec3.zero := by
  by_cases h : (1e-10 : ℝ) < v.length
  · exact Or.inl (Vec3.normalize_length h)
  · right
    unfold Vec3.normalize
    exact if_neg h

theorem stepSizeFor_pos (bh : BlackHole) (d : ℝ) : 0 < stepSizeFor bh d := by
  unfold stepSizeFor RenderConfig.ADAPTIVE_STEP_FAR RenderConfig.ADAPTIVE_STEP_MEDIUM
    RenderConfig.ADAPTIVE_STEP_NEAR RenderConfig.ADAPTIVE_STEP_CLOSE
  split_ifs <;> norm_num

theorem stepSizeFor_le (bh : BlackHole) (d : ℝ) :
    stepSizeFor bh d ≤ RenderConfig.ADAPTIVE_STEP_FAR := by
  unfold stepSizeFor RenderConfig.ADAPTIVE_STEP_FAR RenderConfig.ADAPTIVE_STEP_MEDIUM
    RenderConfig.ADAPTIVE_STEP_NEAR RenderConfig.ADAPTIVE_STEP_CLOSE
  split_ifs <;> norm_num

theorem closeDiskHit_eq_some (bh : BlackHole) (pos dir : Vec3) (s : ℝ) (ip : Vec3)
    (h : bh.intersectsAccretionDisk pos dir = some ip)
    (hc : pos.distanceTo ip < s * 2.0) :
    closeDiskHit bh pos dir s = some ip := by
  unfold closeDiskHit
  rw [h]
  exact if_pos hc

theorem traceRayLoop_zero (bh : BlackHole) (background : Vec3 → Color) (step : ℕ)
    (pos dir : Vec3) (total : ℝ) (tests : ℕ) :
    traceRayLoop bh background 0 step pos dir total tests =
      ⟨background dir, ExitKind.background, step, tests, total⟩ := rfl

theorem traceRayLoop_horizon (bh : BlackHole) (background : Vec3 → Color) (n step : ℕ)
    (pos dir : Vec3) (total : ℝ) (tests : ℕ)
    (h : pos.distanceTo bh.position < bh.schwarzschildRadius * 1.01) :
    traceRayLoop bh background (n + 1) step pos dir total tests =
      ⟨⟨0, 0, 0⟩, ExitKind.horizon, step, tests, total⟩ := by
  simp only [traceRayLoop]
  rw [if_pos h]

theorem traceRayLoop_diskHit (bh : BlackHole) (background : Vec3 → Color) (n step : ℕ)
    (pos dir : Vec3) (total : ℝ) (tests : ℕ) (ip : Vec3)
    (h1 : ¬ pos.distanceTo bh.position < bh.schwarzschildRadius * 1.01)
    (h2 : closeDiskHit bh pos dir (stepSizeFor bh (pos.distanceTo bh.position)) = some ip) :
    traceRayLoop bh background (n + 1) step pos dir total tests =
      ⟨Color.smul
          (if pos.distanceTo bh.position < bh.schwarzschildRadius * 4.0 then
             (bh.calculateAccretionDiskColor ip).add
               ((Color.smul ⟨0.8, 0.9, 1.0⟩
                  (1.0 / (1.0 + (pos.distanceTo bh.position - bh.schwarzschildRadius)))).smul 0.3)
           else bh.calculateAccretionDiskColor ip)
          (1.0 + 0.5 / (1.0 + pos.distanceTo ip)),
        ExitKind.diskHit ip pos, step, tests + 1, total⟩ := by
  simp only [traceRayLoop]
  rw [if_neg h1, h2]

theorem traceRayLoop_advance (bh : BlackHole) (background : Vec3 → Color) (n step : ℕ)
    (pos dir : Vec3) (total : ℝ) (tests : ℕ)
    (h1 : ¬ pos.distanceTo bh.position < bh.schwarzschildRadius * 1.01)
    (h2 : closeDiskHit bh pos dir (stepSizeFor bh (pos.distanceTo bh.position)) = none) :
    traceRayLoop bh background (n + 1) step pos dir total tests =
      (if total + stepSizeFor bh (pos.distanceTo bh.position) >
          RenderConfig.MAX_RAY_DISTANCE then
         ⟨background (if step % 3 = 0 then bh.applyGravitationalLensing pos dir else dir),
           ExitKind.background, step + 1, tests + 1,
           total + stepSizeFor bh (pos.distanceTo bh.position)⟩
       else
         traceRayLoop bh background n (step + 1)
           (pos.add ((if step % 3 = 0 then bh.applyGravitationalLensing pos dir
             else dir).smul (stepSizeFor bh (pos.distanceTo bh.position))))
           (if step % 3 = 0 then bh.applyGravitationalLensing pos dir else dir)
           (total + stepSizeFor bh (pos.distanceTo bh.position)) (tests + 1)) := by
  simp only [traceRayLoop]
  rw [if_neg h1, h2]

theorem traceRayLoop_budget (bh : BlackHole) (background : Vec3 → Color) :
    ∀ (n step : ℕ) (pos dir : Vec3) (total : ℝ) (tests : ℕ),
      total ≤ RenderConfig.MAX_RAY_DISTANCE →
      (traceRayLoop bh background n step pos dir total tests).stepsTaken ≤ step + n ∧
      (traceRayLoop bh background n step pos dir total tests).totalDistance ≤
        RenderConfig.MAX_RAY_DISTANCE + RenderConfig.ADAPTIVE_STEP_FAR := by
  intro n
  induction n with
  | zero =>
      intro step pos dir total tests htotal
      rw [traceRayLoop_zero]
      refine ⟨le_refl _, ?_⟩
      have h04 : (0 : ℝ) ≤ RenderConfig.ADAPTIVE_STEP_FAR := by
        unfold RenderConfig.ADAPTIVE_STEP_FAR
        norm_num
      show total ≤ _
      linarith
  | succ n ih =>
      intro step pos dir total tests htotal
      by_cases hhor : pos.distanceTo bh.position < bh.schwarzschildRadius * 1.01
      · rw [traceRayLoop_horizon bh background n step pos dir total tests hhor]
        refine ⟨Nat.le_add_right _ _, ?_⟩
        have h04 : (0 : ℝ) ≤ RenderConfig.ADAPTIVE_STEP_FAR := by
          unfold RenderConfig.ADAPTIVE_STEP_FAR
          norm_num
        show total ≤ _
        linarith
      · rcases hC : closeDiskHit bh pos dir (stepSizeFor bh (pos.distanceTo bh.position)) with
          _ | ip
        · rw [traceRayLoop_advance bh background n step pos dir total tests hhor hC]
          by_cases hbreak : total + stepSizeFor bh (pos.distanceTo bh.position) >
              RenderConfig.MAX_RAY_DISTANCE
          · rw [if_pos hbreak]
            refine ⟨?_, ?_⟩
            · show step + 1 ≤ step + (n + 1)
              omega
            · have hle := stepSizeFor_le bh (pos.distanceTo bh.position)
              show total + _ ≤ _
              linarith
          · rw [if_neg hbreak]
            obtain ⟨ha, hb⟩ := ih (step + 1) _ _ _ (tests + 1) (not_lt.mp hbreak)
            exact ⟨by omega, hb⟩
        · rw [traceRayLoop_diskHit bh background n step pos dir total tests ip hhor hC]
          refine ⟨Nat.le_add_right _ _, ?_⟩
          have h04 : (0 : ℝ) ≤ RenderConfig.ADAPTIVE_STEP_FAR := by
            unfold RenderConfig.ADAPTIVE_STEP_FAR
            norm_num
          show total ≤ _
          linarith

theorem traceRayLoop_diskHit_color (bh : BlackHole) (background : Vec3 → Color) :
    ∀ (n step : ℕ) (pos dir : Vec3) (total : ℝ) (tests : ℕ) (ip hpos : Vec3),
      (traceRayLoop bh background n step pos dir total tests).exitKind =
        ExitKind.diskHit ip hpos →
      (traceRayLoop bh background n step pos dir total tests).color =
        Color.smul
          (if hpos.distanceTo bh.position < bh.schwarzschildRadius * 4.0 then
             (bh.calculateAccretionDiskColor ip).add
               ((Color.smul ⟨0.8, 0.9, 1.0⟩
                  (1.0 / (1.0 + (hpos.distanceTo bh.position -
                    bh.schwarzschildRadius)))).smul 0.3)
           else bh.calculateAccretionDiskColor ip)
          (1.0 + 0.5 / (1.0 + hpos.distanceTo ip)) := by
  intro n
  induction n with
  | zero =>
      intro step pos dir total tests ip hpos hexit
      rw [traceRayLoop_zero] at hexit
      simp at hexit
  | succ n ih =>
      intro step pos dir total tests ip hpos hexit
      by_cases hhor : pos.distanceTo bh.position < bh.schwarzschildRadius * 1.01
      · rw [traceRayLoop_horizon bh background n step pos dir total tests hhor] at hexit
        simp at hexit
      · rcases hC : closeDiskHit bh pos dir (stepSizeFor bh (pos.distanceTo bh.position)) with
          _ | ip'
        · rw [traceRayLoop_advance bh background n step pos dir total tests hhor hC]
            at hexit ⊢
          by_cases hbreak : total + stepSizeFor bh (pos.distanceTo bh.position) >
              RenderConfig.MAX_RAY_DISTANCE
          · rw [if_pos hbreak] at hexit
            simp at hexit
          · rw [if_neg hbreak] at hexit ⊢
            exact ih (step + 1) _ _ _ (tests + 1) ip hpos hexit
        · rw [traceRayLoop_diskHit bh background n step pos dir total tests ip' hhor hC]
            at hexit ⊢
          have hinj : ip' = ip ∧ pos = hpos := by
            simpa [ExitKind.diskHit.injEq] using hexit
          obtain ⟨hip, hp⟩ := hinj
          subst hip
          subst hp
          rfl

-- ===========================================================================
-- Claim theorems
-- ===========================================================================

/-- Claim C2: for every black hole, background, origin and direction, the
marching loop of `traceRay` executes at most `MAX_RAY_STEPS = 500`
iterations, and the distance budget is enforced inside the loop: the
accumulated travel distance at exit never exceeds `MAX_RAY_DISTANCE = 50`
by more than one final (largest, `0.4`) step, because the loop stops as
soon as the total exceeds the budget.  Termination for every ray is by
construction of the fuel-indexed recursion, whose fuel is the source's
fixed step bound. -/
theorem C2_traceRay_bounded (bh : BlackHole) (background : Vec3 → Color)
    (origin direction : Vec3) :
    (traceRay bh background origin direction).stepsTaken ≤ RenderConfig.MAX_RAY_STEPS ∧
    (traceRay bh background origin direction).totalDistance ≤
      RenderConfig.MAX_RAY_DISTANCE + RenderConfig.ADAPTIVE_STEP_FAR := by
  have h := traceRayLoop_budget bh background RenderConfig.MAX_RAY_STEPS 0 origin direction
    0.0 0 (by unfold RenderConfig.MAX_RAY_DISTANCE; norm_num)
  unfold traceRay
  exact ⟨by simpa using h.1, h.2⟩

/-- Claim C4: for a black hole of mass `1.0`, a ray whose origin lies at
distance `0.5·Rs` from the hole's center is classified as captured in the
very first loop iteration: `traceRay` returns `Color(0,0,0)` and performs
no disk-intersection test at all. -/
theorem C4_horizon_capture (center origin direction : Vec3) (background : Vec3 → Color)
    (h : origin.distanceTo center = 0.5 * (BlackHole.mk center 1).schwarzschildRadius) :
    (traceRay (BlackHole.mk center 1) background origin direction).color = ⟨0, 0, 0⟩ ∧
    (traceRay (BlackHole.mk center 1) background origin direction).diskTests = 0 := by
  have hrs : (BlackHole.mk center 1).schwarzschildRadius = 2 := by
    unfold BlackHole.schwarzschildRadius PhysicsConstants.SCHWARZSCHILD_MULTIPLIER
    norm_num
  have hcond : origin.distanceTo (BlackHole.mk center 1).position <
      (BlackHole.mk center 1).schwarzschildRadius * 1.01 := by
    show origin.distanceTo center < _
    rw [h, hrs]
    norm_num
  unfold traceRay
  rw [show RenderConfig.MAX_RAY_STEPS = 499 + 1 from rfl,
    traceRayLoop_horizon _ _ _ _ _ _ _ _ hcond]
  exact ⟨rfl, rfl⟩

/-- Witness for C4: origin `(1,0,0)`, hole at the origin with mass 1
(`Rs = 2`, so the origin sits at distance `1 = 0.5·Rs`). -/
theorem C4_horizon_capture_witness :
    (Vec3.mk 1 0 0).distanceTo ⟨0, 0, 0⟩ =
      0.5 * (BlackHole.mk ⟨0, 0, 0⟩ 1).schwarzschildRadius ∧
    ((traceRay (BlackHole.mk ⟨0, 0, 0⟩ 1) (fun _ => ⟨0, 0, 0⟩) ⟨1, 0, 0⟩ ⟨0, 1, 0⟩).color
        = ⟨0, 0, 0⟩ ∧
     (traceRay (BlackHole.mk ⟨0, 0, 0⟩ 1) (fun _ => ⟨0, 0, 0⟩) ⟨1, 0, 0⟩
        ⟨0, 1, 0⟩).diskTests = 0) := by
  have h : (Vec3.mk 1 0 0).distanceTo ⟨0, 0, 0⟩ =
      0.5 * (BlackHole.mk ⟨0, 0, 0⟩ 1).schwarzschildRadius := by
    have h1 : (Vec3.mk 1 0 0).distanceTo ⟨0, 0, 0⟩ = 1 := by
      unfold Vec3.distanceTo
      exact Vec3.length_eq (by norm_num) (by norm_num [Vec3.sub])
    rw [h1]
    unfold BlackHole.schwarzschildRadius PhysicsConstants.SCHWARZSCHILD_MULTIPLIER
    norm_num
  exact ⟨h, C4_horizon_capture _ _ _ _ h⟩

/-- Claim C1 counterexample: at `rayPosition = (20,0,0)` the distance to a
mass-1 hole at the origin is exactly `10·Rs = 20`.  The claim says lensing
leaves the direction unchanged for distances at least `10·Rs`, but the
code's strict `>` test fails at equality, the moderate-bending branch runs,
and the returned direction differs from the input `(0,1,0)`. -/
theorem C1_counterexample :
    (Vec3.sub ⟨20, 0, 0⟩ (BlackHole.mk ⟨0, 0, 0⟩ 1).position).length =
      (BlackHole.mk ⟨0, 0, 0⟩ 1).schwarzschildRadius * 10.0 ∧
    (BlackHole.mk ⟨0, 0, 0⟩ 1).applyGravitationalLensing ⟨20, 0, 0⟩ ⟨0, 1, 0⟩ ≠
      ⟨0, 1, 0⟩ := by
  have hs400 : Real.sqrt 400 = 20 := sqrt_eq_of_eq_sq (by norm_num) (by norm_num)
  have hlen2 : (Vec3.mk (-20 : ℝ) 0 0).length = 20 :=
    Vec3.length_eq (by norm_num) (by norm_num)
  have hn1 : (Vec3.mk (-20 : ℝ) 0 0).normalize = ⟨-1, 0, 0⟩ := by
    rw [Vec3.normalize_eq hlen2 (by norm_num)]
    norm_num [Vec3.mk.injEq]
  have hc1 : Vec3.cross ⟨0, 1, 0⟩ ⟨-1, 0, 0⟩ = ⟨0, 0, 1⟩ := by
    norm_num [Vec3.cross, Vec3.mk.injEq]
  have hc2 : Vec3.cross ⟨0, 0, 1⟩ ⟨0, 1, 0⟩ = ⟨-1, 0, 0⟩ := by
    norm_num [Vec3.cross, Vec3.mk.injEq]
  have hlen3 : (Vec3.mk (-1 : ℝ) 0 0).length = 1 := Vec3.length_eq (by norm_num) (by norm_num)
  have hn2 : (Vec3.mk (-1 : ℝ) 0 0).normalize = ⟨-1, 0, 0⟩ := by
    rw [Vec3.normalize_eq hlen3 (by norm_num)]
    norm_num [Vec3.mk.injEq]
  have happ : (BlackHole.mk ⟨0, 0, 0⟩ 1).applyGravitationalLensing ⟨20, 0, 0⟩ ⟨0, 1, 0⟩ =
      (Vec3.add ⟨0, 1, 0⟩ (Vec3.smul ⟨-1, 0, 0⟩ (2.0 * 1 / (20 * 20) * 0.1))).normalize := by
    norm_num [BlackHole.applyGravitationalLensing, Vec3.sub, Vec3.add, Vec3.smul,
      Vec3.length, BlackHole.schwarzschildRadius, PhysicsConstants.SCHWARZSCHILD_MULTIPLIER,
      PhysicsConstants.PHOTON_SPHERE_MULTIPLIER, hs400, hn1, hc1, hc2, hn2, Vec3.mk.injEq]
  have hwx : (Vec3.add ⟨0, 1, 0⟩
      (Vec3.smul ⟨-1, 0, 0⟩ (2.0 * 1 / (20 * 20) * 0.1)) : Vec3).x ≠ 0 := by
    norm_num [Vec3.add, Vec3.smul]
  have hwlen : (1 : ℝ) ≤ (Vec3.add ⟨0, 1, 0⟩
      (Vec3.smul ⟨-1, 0, 0⟩ (2.0 * 1 / (20 * 20) * 0.1)) : Vec3).length := by
    have h1 : Real.sqrt 1 ≤ (Vec3.add ⟨0, 1, 0⟩
        (Vec3.smul ⟨-1, 0, 0⟩ (2.0 * 1 / (20 * 20) * 0.1)) : Vec3).length := by
      unfold Vec3.length
      apply Real.sqrt_le_sqrt
      norm_num [Vec3.add, Vec3.smul]
    simpa using h1
  refine ⟨?_, ?_⟩
  · show (Vec3.sub ⟨20, 0, 0⟩ ⟨0, 0, 0⟩).length = _
    norm_num [Vec3.sub, Vec3.length, hs400, BlackHole.schwarzschildRadius,
      PhysicsConstants.SCHWARZSCHILD_MULTIPLIER]
  · rw [happ]
    intro hEq
    rw [Vec3.normalize_eq rfl (lt_of_lt_of_le (by norm_num) hwlen)] at hEq
    have hx0 := congrArg Vec3.x hEq
    dsimp at hx0
    have hLne : (Vec3.add ⟨0, 1, 0⟩
        (Vec3.smul ⟨-1, 0, 0⟩ (2.0 * 1 / (20 * 20) * 0.1)) : Vec3).length ≠ 0 := by
      intro h0
      rw [h0] at hwlen
      norm_num at hwlen
    exact absurd hx0 (div_ne_zero hwx hLne)

/-- Claim C1 (amended): for a black hole of positive mass,
`applyGravitationalLensing` returns the direction unchanged when the ray is
past the horizon (`dist < Rs`) or strictly beyond ten Schwarzschild radii
(`dist > 10·Rs`); the bending branches run exactly on the closed band
`Rs ≤ dist ≤ 10·Rs` (at `dist = 10·Rs` the code's strict `>` test fails and
moderate bending is still applied). -/
theorem C1_lensing_unchanged (bh : BlackHole) (rayPosition rayDirection : Vec3)
    (hm : 0 < bh.mass)
    (h : (Vec3.sub rayPosition bh.position).length < bh.schwarzschildRadius ∨
         (Vec3.sub rayPosition bh.position).length > bh.schwarzschildRadius * 10.0) :
    bh.applyGravitationalLensing rayPosition rayDirection = rayDirection := by
  have hrs : (0 : ℝ) < bh.schwarzschildRadius := by
    unfold BlackHole.schwarzschildRadius PhysicsConstants.SCHWARZSCHILD_MULTIPLIER
    linarith
  simp only [BlackHole.applyGravitationalLensing]
  rcases h with h | h
  · have h15 : (Vec3.sub rayPosition bh.position).length <
        bh.schwarzschildRadius * PhysicsConstants.PHOTON_SPHERE_MULTIPLIER := by
      unfold PhysicsConstants.PHOTON_SPHERE_MULTIPLIER
      nlinarith
    rw [if_pos h15, if_pos h]
  · have h15 : ¬ ((Vec3.sub rayPosition bh.position).length <
        bh.schwarzschildRadius * PhysicsConstants.PHOTON_SPHERE_MULTIPLIER) := by
      unfold PhysicsConstants.PHOTON_SPHERE_MULTIPLIER
      push_neg
      nlinarith
    rw [if_neg h15, if_pos h]

/-- Witness for C1 (amended): a mass-1 hole at the origin and a ray position
at distance `100 > 10·Rs = 20`. -/
theorem C1_lensing_unchanged_witness :
    (0 : ℝ) < (BlackHole.mk ⟨0, 0, 0⟩ 1).mass ∧
    ((Vec3.sub ⟨100, 0, 0⟩ (BlackHole.mk ⟨0, 0, 0⟩ 1).position).length <
        (BlackHole.mk ⟨0, 0, 0⟩ 1).schwarzschildRadius ∨
     (Vec3.sub ⟨100, 0, 0⟩ (BlackHole.mk ⟨0, 0, 0⟩ 1).position).length >
        (BlackHole.mk ⟨0, 0, 0⟩ 1).schwarzschildRadius * 10.0) ∧
    (BlackHole.mk ⟨0, 0, 0⟩ 1).applyGravitationalLensing ⟨100, 0, 0⟩ ⟨0, 0, 1⟩ =
      ⟨0, 0, 1⟩ := by
  have hm : (0 : ℝ) < (BlackHole.mk ⟨0, 0, 0⟩ 1).mass := by
    show (0 : ℝ) < 1
    norm_num
  have hd : (Vec3.sub ⟨100, 0, 0⟩ (BlackHole.mk ⟨0, 0, 0⟩ 1).position).length >
      (BlackHole.mk ⟨0, 0, 0⟩ 1).schwarzschildRadius * 10.0 := by
    have hs : Real.sqrt 10000 = 100 := sqrt_eq_of_eq_sq (by norm_num) (by norm_num)
    show (Vec3.sub ⟨100, 0, 0⟩ ⟨0, 0, 0⟩).length > _
    norm_num [Vec3.sub, Vec3.length, hs, BlackHole.schwarzschildRadius,
      PhysicsConstants.SCHWARZSCHILD_MULTIPLIER]
  exact ⟨hm, Or.inr hd, C1_lensing_unchanged _ _ _ hm (Or.inr hd)⟩

/-- Claim C10 counterexample: at `rayPosition = (2.1, 0, 0)` (so
`dist − Rs = 0.1`) with the unit direction `(1,0,0)` pointing away from a
mass-1 hole at the origin, the strong-deflection perturbation
`towardCenter · (1/(dist−Rs)) · 0.1` exactly cancels the input direction;
`normalize` then maps the zero vector to itself and lensing returns a
zero-length vector for a unit-length input. -/
theorem C10_counterexample :
    (Vec3.mk (1 : ℝ) 0 0).length = 1 ∧
    ((BlackHole.mk ⟨0, 0, 0⟩ 1).applyGravitationalLensing ⟨21/10, 0, 0⟩
      ⟨1, 0, 0⟩).length ≠ 1 := by
  have hu : (Vec3.mk (1 : ℝ) 0 0).length = 1 := Vec3.length_eq (by norm_num) (by norm_num)
  have hs : Real.sqrt (441/100) = 21/10 := sqrt_eq_of_eq_sq (by norm_num) (by norm_num)
  have hlen2 : (Vec3.mk (-(21/10) : ℝ) 0 0).length = 21/10 :=
    Vec3.length_eq (by norm_num) (by norm_num)
  have hn1 : (Vec3.mk (-(21/10) : ℝ) 0 0).normalize = ⟨-1, 0, 0⟩ := by
    rw [Vec3.normalize_eq hlen2 (by norm_num)]
    norm_num [Vec3.mk.injEq]
  have happ : (BlackHole.mk ⟨0, 0, 0⟩ 1).applyGravitationalLensing ⟨21/10, 0, 0⟩ ⟨1, 0, 0⟩ =
      (Vec3.mk (0 : ℝ) 0 0).normalize := by
    norm_num [BlackHole.applyGravitationalLensing, Vec3.sub, Vec3.add, Vec3.smul,
      Vec3.length, BlackHole.schwarzschildRadius, PhysicsConstants.SCHWARZSCHILD_MULTIPLIER,
      PhysicsConstants.PHOTON_SPHERE_MULTIPLIER, hs, hn1, Vec3.mk.injEq]
  have hl0 : (Vec3.mk (0 : ℝ) 0 0).length = 0 := Vec3.length_eq (le_refl 0) (by norm_num)
  have hz : (Vec3.mk (0 : ℝ) 0 0).normalize = Vec3.zero := by
    unfold Vec3.normalize
    rw [hl0, if_neg (by norm_num)]
  have hzl : (Vec3.zero).length = 0 := by
    unfold Vec3.zero
    exact Vec3.length_eq (le_refl 0) (by norm_num)
  refine ⟨hu, ?_⟩
  rw [happ, hz, hzl]
  norm_num

/-- Claim C10 (amended): for every unit-length input direction, the vector
returned by `applyGravitationalLensing` is either unit length or the zero
vector (the zero vector arises in the strong-deflection branch when the
perturbation cancels the direction, as the counterexample shows). -/
theorem C10_lensing_unit_or_zero (bh : BlackHole) (rayPosition rayDirection : Vec3)
    (h : rayDirection.length = 1) :
    (bh.applyGravitationalLensing rayPosition rayDirection).length = 1 ∨
    bh.applyGravitationalLensing rayPosition rayDirection = Vec3.zero := by
  simp only [BlackHole.applyGravitationalLensing]
  split_ifs with h1 h2 h3
  · exact Or.inl h
  · exact Vec3.normalize_unit_or_zero _
  · exact Or.inl h
  · exact Vec3.normalize_unit_or_zero _

/-- Witness for C10 (amended): the unit direction `(0,0,1)` far from a
mass-1 hole. -/
theorem C10_lensing_unit_or_zero_witness :
    (Vec3.mk (0 : ℝ) 0 1).length = 1 ∧
    (((BlackHole.mk ⟨0, 0, 0⟩ 1).applyGravitationalLensing ⟨100, 0, 0⟩
        ⟨0, 0, 1⟩).length = 1 ∨
     (BlackHole.mk ⟨0, 0, 0⟩ 1).applyGravitationalLensing ⟨100, 0, 0⟩ ⟨0, 0, 1⟩ =
       Vec3.zero) := by
  have h : (Vec3.mk (0 : ℝ) 0 1).length = 1 := Vec3.length_eq (by norm_num) (by norm_num)
  exact ⟨h, C10_lensing_unit_or_zero _ _ _ h⟩

/-- Claim C6: for every mass `m > 0`, a constructed `BlackHole` has
`schwarzschildRadius = 2·m`, `diskInnerRadius = 6·m`, `diskOuterRadius = 20·m`,
and satisfies the invariant `0 < Rs ≤ diskInner ≤ diskOuter`. -/
theorem C6_blackhole_radii (position : Vec3) (m : ℝ) (hm : 0 < m) :
    (BlackHole.mk position m).schwarzschildRadius = 2 * m ∧
    (BlackHole.mk position m).diskInnerRadius = 6 * m ∧
    (BlackHole.mk position m).diskOuterRadius = 20 * m ∧
    0 < (BlackHole.mk position m).schwarzschildRadius ∧
    (BlackHole.mk position m).schwarzschildRadius ≤ (BlackHole.mk position m).diskInnerRadius ∧
    (BlackHole.mk position m).diskInnerRadius ≤ (BlackHole.mk position m).diskOuterRadius := by
  unfold BlackHole.diskInnerRadius BlackHole.diskOuterRadius BlackHole.schwarzschildRadius
    PhysicsConstants.SCHWARZSCHILD_MULTIPLIER PhysicsConstants.DISK_INNER_MULTIPLIER
    PhysicsConstants.DISK_OUTER_MULTIPLIER
  norm_num
  refine ⟨by ring, by ring, by linarith, by nlinarith, by nlinarith⟩

/-- Witness for C6 at `m = 1`. -/
theorem C6_blackhole_radii_witness :
    (0 : ℝ) < 1 ∧
    ((BlackHole.mk ⟨0, 0, 0⟩ 1).schwarzschildRadius = 2 * 1 ∧
     (BlackHole.mk ⟨0, 0, 0⟩ 1).diskInnerRadius = 6 * 1 ∧
     (BlackHole.mk ⟨0, 0, 0⟩ 1).diskOuterRadius = 20 * 1 ∧
     0 < (BlackHole.mk ⟨0, 0, 0⟩ 1).schwarzschildRadius ∧
     (BlackHole.mk ⟨0, 0, 0⟩ 1).schwarzschildRadius ≤ (BlackHole.mk ⟨0, 0, 0⟩ 1).diskInnerRadius ∧
     (BlackHole.mk ⟨0, 0, 0⟩ 1).diskInnerRadius ≤ (BlackHole.mk ⟨0, 0, 0⟩ 1).diskOuterRadius) :=
  ⟨by norm_num, C6_blackhole_radii ⟨0, 0, 0⟩ 1 (by norm_num)⟩

/-- Claim C7: `Vec3` operations are total and never fault: dividing by a
scalar of absolute value below `1e-10` yields the zero vector, `normalize`
of a vector of length at most `1e-10` yields the zero vector, and
`normalize` of a vector of length above `1e-10` yields a unit vector
(length exactly 1 in the real-number semantics). -/
theorem C7_vec3_totality :
    (∀ (v : Vec3) (s : ℝ), |s| < 1e-10 → v.div s = Vec3.zero) ∧
    (∀ v : Vec3, v.length ≤ 1e-10 → v.normalize = Vec3.zero) ∧
    (∀ v : Vec3, (1e-10 : ℝ) < v.length → v.normalize.length = 1) := by
  refine ⟨?_, ?_, ?_⟩
  · intro v s hs
    unfold Vec3.div
    exact if_pos hs
  · intro v hv
    unfold Vec3.normalize
    exact if_neg (not_lt.mpr hv)
  · intro v hv
    exact Vec3.normalize_length hv

/-- Witness for C7 at `s = 0`, the zero vector, and the unit x vector. -/
theorem C7_vec3_totality_witness :
    (|(0 : ℝ)| < 1e-10 ∧ (Vec3.mk 1 2 3).div 0 = Vec3.zero) ∧
    (Vec3.zero.length ≤ 1e-10 ∧ Vec3.zero.normalize = Vec3.zero) ∧
    ((1e-10 : ℝ) < (Vec3.mk 1 0 0).length ∧ (Vec3.mk 1 0 0).normalize.length = 1) := by
  have h1 : |(0 : ℝ)| < 1e-10 := by norm_num
  have h2 : Vec3.zero.length ≤ 1e-10 := by
    norm_num [Vec3.zero, Vec3.length, Real.sqrt_zero]
  have h3 : (1e-10 : ℝ) < (Vec3.mk 1 0 0).length := by
    have h : (Vec3.mk 1 0 0).length = 1 := Vec3.length_eq (by norm_num) (by norm_num)
    rw [h]
    norm_num
  exact ⟨⟨h1, C7_vec3_totality.1 _ _ h1⟩, ⟨h2, C7_vec3_totality.2.1 _ h2⟩,
    ⟨h3, C7_vec3_totality.2.2 _ h3⟩⟩

/-- Claim C3: `intersectsAccretionDisk` reports a hit if and only if
`|dir.y| ≥ 1e-6`, the plane parameter `t = (pos.y − origin.y)/dir.y`
satisfies `0 ≤ t ≤ 2.0`, and the hit point's radial distance from the
hole's vertical axis lies in `[diskInner, diskOuter]`; in every other case
(near-parallel ray, `t < 0`, `t > 2.0`, or radius outside the annulus) it
reports no hit. -/
theorem C3_intersectsAccretionDisk_iff (bh : BlackHole) (rayOrigin rayDirection : Vec3) :
    (bh.intersectsAccretionDisk rayOrigin rayDirection).isSome = true ↔
      ((1e-6 : ℝ) ≤ |rayDirection.y| ∧
       0.0 ≤ (bh.position.y - rayOrigin.y) / rayDirection.y ∧
       (bh.position.y - rayOrigin.y) / rayDirection.y ≤ 2.0 ∧
       bh.diskInnerRadius ≤
         Real.sqrt
           (((rayOrigin.add (rayDirection.smul
               ((bh.position.y - rayOrigin.y) / rayDirection.y))).x - bh.position.x) ^ 2 +
            ((rayOrigin.add (rayDirection.smul
               ((bh.position.y - rayOrigin.y) / rayDirection.y))).z - bh.position.z) ^ 2) ∧
       Real.sqrt
           (((rayOrigin.add (rayDirection.smul
               ((bh.position.y - rayOrigin.y) / rayDirection.y))).x - bh.position.x) ^ 2 +
            ((rayOrigin.add (rayDirection.smul
               ((bh.position.y - rayOrigin.y) / rayDirection.y))).z - bh.position.z) ^ 2) ≤
         bh.diskOuterRadius) := by
  simp only [BlackHole.intersectsAccretionDisk]
  split_ifs with h1 h2 h3
  · simp only [Option.isSome_none, Bool.false_eq_true, false_iff]
    intro hc
    exact absurd hc.1 (not_le.mpr h1)
  · simp only [Option.isSome_none, Bool.false_eq_true, false_iff]
    intro hc
    rcases h2 with h2 | h2
    · exact absurd hc.2.1 (not_le.mpr h2)
    · exact absurd hc.2.2.1 (not_le.mpr h2)
  · simp only [Option.isSome_some, true_iff]
    push_neg at h1 h2
    exact ⟨h1, h2.1, h2.2, h3.1, h3.2⟩
  · simp only [Option.isSome_none, Bool.false_eq_true, false_iff]
    intro hc
    exact h3 ⟨hc.2.2.2.1, hc.2.2.2.2⟩

/-- Claim C8 counterexample: for a mass-1 hole at the origin and the hit
point `(6,0,0)` — which lies exactly at radial distance `diskInner = 6` —
the clamped temperature `min(1, max(0.1, 1/(d/Rs)))` computed inside
`calculateAccretionDiskColor` equals `1/3`, not `1.0`. -/
theorem C8_counterexample :
    (BlackHole.mk ⟨0, 0, 0⟩ 1).diskDistanceFromCenter ⟨6, 0, 0⟩ =
      (BlackHole.mk ⟨0, 0, 0⟩ 1).diskInnerRadius ∧
    (BlackHole.mk ⟨0, 0, 0⟩ 1).diskTemperature ⟨6, 0, 0⟩ ≠ 1 := by
  have hs36 : Real.sqrt 36 = 6 := sqrt_eq_of_eq_sq (by norm_num) (by norm_num)
  have hd : (BlackHole.mk ⟨0, 0, 0⟩ 1).diskDistanceFromCenter ⟨6, 0, 0⟩ = 6 := by
    norm_num [BlackHole.diskDistanceFromCenter, hs36]
  have hrs : (BlackHole.mk ⟨0, 0, 0⟩ 1).schwarzschildRadius = 2 := by
    unfold BlackHole.schwarzschildRadius PhysicsConstants.SCHWARZSCHILD_MULTIPLIER
    norm_num
  constructor
  · rw [hd]
    unfold BlackHole.diskInnerRadius PhysicsConstants.DISK_INNER_MULTIPLIER
    rw [hrs]
    norm_num
  · unfold BlackHole.diskTemperature
    rw [hd, hrs]
    rw [show (6 : ℝ) / 2 = 3 by norm_num,
      max_eq_right (by norm_num : (0.1 : ℝ) ≤ 1.0 / 3),
      min_eq_right (by norm_num : (1.0 : ℝ) / 3 ≤ 1.0)]
    norm_num

/-- Claim C8 (amended): for every hole of positive mass and every hit point
at radial distance exactly `diskInner` from the hole's axis, the clamped
temperature computed inside `calculateAccretionDiskColor` equals `1/3`
(the raw value `1/(d/Rs) = 1/3` lies inside the clamp band `[0.1, 1.0]`,
so no clamping to `1.0` occurs). -/
theorem C8_inner_edge_temperature (bh : BlackHole) (point : Vec3) (hm : 0 < bh.mass)
    (h : bh.diskDistanceFromCenter point = bh.diskInnerRadius) :
    bh.diskTemperature point = 1/3 := by
  have hrs : (0 : ℝ) < bh.schwarzschildRadius := by
    unfold BlackHole.schwarzschildRadius PhysicsConstants.SCHWARZSCHILD_MULTIPLIER
    linarith
  have hne : bh.schwarzschildRadius ≠ 0 := ne_of_gt hrs
  have h3 : bh.diskInnerRadius / bh.schwarzschildRadius = 3 := by
    unfold BlackHole.diskInnerRadius PhysicsConstants.DISK_INNER_MULTIPLIER
    field_simp
    norm_num
  unfold BlackHole.diskTemperature
  rw [h, h3]
  rw [max_eq_right (by norm_num : (0.1 : ℝ) ≤ 1.0 / 3),
    min_eq_right (by norm_num : (1.0 : ℝ) / 3 ≤ 1.0)]
  norm_num

/-- Witness for C8 (amended): the mass-1 hole at the origin and the hit
point `(6,0,0)` on the inner disk edge. -/
theorem C8_inner_edge_temperature_witness :
    (0 : ℝ) < (BlackHole.mk ⟨0, 0, 0⟩ 1).mass ∧
    (BlackHole.mk ⟨0, 0, 0⟩ 1).diskDistanceFromCenter ⟨6, 0, 0⟩ =
      (BlackHole.mk ⟨0, 0, 0⟩ 1).diskInnerRadius ∧
    (BlackHole.mk ⟨0, 0, 0⟩ 1).diskTemperature ⟨6, 0, 0⟩ = 1/3 := by
  have hm : (0 : ℝ) < (BlackHole.mk ⟨0, 0, 0⟩ 1).mass := by
    show (0 : ℝ) < 1
    norm_num
  have hs36 : Real.sqrt 36 = 6 := sqrt_eq_of_eq_sq (by norm_num) (by norm_num)
  have hd : (BlackHole.mk ⟨0, 0, 0⟩ 1).diskDistanceFromCenter ⟨6, 0, 0⟩ =
      (BlackHole.mk ⟨0, 0, 0⟩ 1).diskInnerRadius := by
    have h1 : (BlackHole.mk ⟨0, 0, 0⟩ 1).diskDistanceFromCenter ⟨6, 0, 0⟩ = 6 := by
      norm_num [BlackHole.diskDistanceFromCenter, hs36]
    rw [h1]
    unfold BlackHole.diskInnerRadius BlackHole.schwarzschildRadius
      PhysicsConstants.DISK_INNER_MULTIPLIER PhysicsConstants.SCHWARZSCHILD_MULTIPLIER
    norm_num
  exact ⟨hm, hd, C8_inner_edge_temperature _ _ hm hd⟩

/-- Claim C9 counterexample: at the finished channel value `c = 1/2` the
integer sample the renderer delivers is `127`, while `round(c·255) = 128`;
the renderer truncates, it does not round. -/
theorem C9_counterexample :
    (0 : ℝ) ≤ 1/2 ∧ (1/2 : ℝ) ≤ 1 ∧ renderByteSample (1/2) ≠ round ((1/2 : ℝ) * 255) := by
  refine ⟨by norm_num, by norm_num, ?_⟩
  have h1 : renderByteSample (1/2) = 127 := by
    unfold renderByteSample cppIntOfReal
    rw [if_pos (by norm_num : (0 : ℝ) ≤ 1/2 * 255)]
    rw [show ((1 : ℝ)/2) * 255 = 127.5 by norm_num]
    rw [Int.floor_eq_iff]
    norm_num
  have h2 : round ((1/2 : ℝ) * 255) = 128 := by
    rw [show ((1 : ℝ)/2) * 255 = 127.5 by norm_num, round_eq,
      show (127.5 : ℝ) + 1/2 = 128 by norm_num]
    rw [show ((128 : ℝ)) = ((128 : ℤ) : ℝ) by norm_num]
    exact Int.floor_intCast 128
  rw [h1, h2]
  norm_num

/-- Claim C9 (amended): for every finished channel value `c ∈ [0,1]` the
integer sample the renderer delivers equals `⌊c·255⌋` (a truncating, not
rounding, multiply). -/
theorem C9_byte_mapping (c : ℝ) (h0 : 0 ≤ c) (_hle : c ≤ 1) :
    renderByteSample c = ⌊c * 255⌋ := by
  unfold renderByteSample cppIntOfReal
  exact if_pos (by positivity)

/-- Witness for C9 (amended) at `c = 1/2`. -/
theorem C9_byte_mapping_witness :
    (0 : ℝ) ≤ 1/2 ∧ (1/2 : ℝ) ≤ 1 ∧ renderByteSample (1/2) = ⌊(1/2 : ℝ) * 255⌋ :=
  ⟨by norm_num, by norm_num, C9_byte_mapping (1/2) (by norm_num) (by norm_num)⟩

/-- Claim C5 counterexample: a ray starting at `(7,0,0)` towards `(0,-1,0)`
over a mass-1 hole at the origin hits the disk immediately (hit point
`(7,0,0)`, hit distance 0, position within `4·Rs = 8`).  The code adds the
lens flare to the disk color *before* multiplying by the proximity
intensity, so the returned color differs from the claim's
`diskColor·intensity + flare`: the red channels differ by
`0.8·(1/6)·0.3·(1.5−1) = 0.02`. -/
theorem C5_counterexample :
    (traceRay (BlackHole.mk ⟨0, 0, 0⟩ 1) (fun _ => ⟨0, 0, 0⟩) ⟨7, 0, 0⟩
        ⟨0, -1, 0⟩).exitKind = ExitKind.diskHit ⟨7, 0, 0⟩ ⟨7, 0, 0⟩ ∧
    (traceRay (BlackHole.mk ⟨0, 0, 0⟩ 1) (fun _ => ⟨0, 0, 0⟩) ⟨7, 0, 0⟩
        ⟨0, -1, 0⟩).color ≠
      (Color.smul ((BlackHole.mk ⟨0, 0, 0⟩ 1).calculateAccretionDiskColor ⟨7, 0, 0⟩)
          (1.0 + 0.5 / (1.0 + 0))).add
        ((Color.smul ⟨0.8, 0.9, 1.0⟩ (1.0 / (1.0 + (7 - 2)))).smul 0.3) := by
  have hs49 : Real.sqrt 49 = 7 := sqrt_eq_of_eq_sq (by norm_num) (by norm_num)
  have hrs : (BlackHole.mk ⟨0, 0, 0⟩ 1).schwarzschildRadius = 2 := by
    unfold BlackHole.schwarzschildRadius PhysicsConstants.SCHWARZSCHILD_MULTIPLIER
    norm_num
  have hd7 : Vec3.distanceTo ⟨7, 0, 0⟩ (BlackHole.mk ⟨0, 0, 0⟩ 1).position = 7 := by
    show Vec3.distanceTo ⟨7, 0, 0⟩ ⟨0, 0, 0⟩ = 7
    norm_num [Vec3.distanceTo, Vec3.sub, Vec3.length, hs49]
  have hd0 : Vec3.distanceTo ⟨7, 0, 0⟩ (⟨7, 0, 0⟩ : Vec3) = 0 := by
    norm_num [Vec3.distanceTo, Vec3.sub, Vec3.length, Real.sqrt_zero]
  have hhor : ¬ Vec3.distanceTo ⟨7, 0, 0⟩ (BlackHole.mk ⟨0, 0, 0⟩ 1).position <
      (BlackHole.mk ⟨0, 0, 0⟩ 1).schwarzschildRadius * 1.01 := by
    rw [hd7, hrs]
    norm_num
  have hI : (BlackHole.mk ⟨0, 0, 0⟩ 1).intersectsAccretionDisk ⟨7, 0, 0⟩ ⟨0, -1, 0⟩ =
      some ⟨7, 0, 0⟩ := by
    norm_num [BlackHole.intersectsAccretionDisk, Vec3.add, Vec3.smul,
      BlackHole.diskInnerRadius, BlackHole.diskOuterRadius, BlackHole.schwarzschildRadius,
      PhysicsConstants.DISK_INNER_MULTIPLIER, PhysicsConstants.DISK_OUTER_MULTIPLIER,
      PhysicsConstants.SCHWARZSCHILD_MULTIPLIER, hs49, Vec3.mk.injEq]
  have hstep : stepSizeFor (BlackHole.mk ⟨0, 0, 0⟩ 1)
      (Vec3.distanceTo ⟨7, 0, 0⟩ (BlackHole.mk ⟨0, 0, 0⟩ 1).position) =
      RenderConfig.ADAPTIVE_STEP_NEAR := by
    rw [hd7]
    unfold stepSizeFor BlackHole.schwarzschildRadius PhysicsConstants.SCHWARZSCHILD_MULTIPLIER
    norm_num
  have hc : Vec3.distanceTo ⟨7, 0, 0⟩ (⟨7, 0, 0⟩ : Vec3) <
      stepSizeFor (BlackHole.mk ⟨0, 0, 0⟩ 1)
        (Vec3.distanceTo ⟨7, 0, 0⟩ (BlackHole.mk ⟨0, 0, 0⟩ 1).position) * 2.0 := by
    rw [hd0, hstep]
    unfold RenderConfig.ADAPTIVE_STEP_NEAR
    norm_num
  have hC := closeDiskHit_eq_some (BlackHole.mk ⟨0, 0, 0⟩ 1) ⟨7, 0, 0⟩ ⟨0, -1, 0⟩ _
    ⟨7, 0, 0⟩ hI hc
  have heval := traceRayLoop_diskHit (BlackHole.mk ⟨0, 0, 0⟩ 1) (fun _ => ⟨0, 0, 0⟩) 499 0
    ⟨7, 0, 0⟩ ⟨0, -1, 0⟩ 0.0 0 ⟨7, 0, 0⟩ hhor hC
  constructor
  · unfold traceRay
    rw [show RenderConfig.MAX_RAY_STEPS = 499 + 1 from rfl, heval]
  · unfold traceRay
    rw [show RenderConfig.MAX_RAY_STEPS = 499 + 1 from rfl, heval]
    show Color.smul _ _ ≠ _
    rw [hd7, hd0, hrs]
    rw [if_pos (by norm_num : (7 : ℝ) < 2 * 4.0)]
    intro hEq
    have hr := congrArg Color.r hEq
    simp only [Color.smul, Color.add] at hr
    norm_num at hr
    linarith

/-- Claim C5 (amended): whenever `traceRay` terminates on a disk hit, the
returned color is the accretion-disk color at the hit point with the
additive lens-flare term `(0.8,0.9,1.0)·(1/(1+(dist−Rs)))·0.3` added first
(only when the marching position is within `4·Rs` of the hole), and the sum
is then multiplied by the proximity-intensity factor
`1 + 0.5/(1 + hitDistance)` — the flare is applied before, not after, the
intensity multiplication. -/
theorem C5_diskHit_color (bh : BlackHole) (background : Vec3 → Color)
    (origin direction ip hpos : Vec3)
    (hexit : (traceRay bh background origin direction).exitKind =
      ExitKind.diskHit ip hpos) :
    (traceRay bh background origin direction).color =
      Color.smul
        (if hpos.distanceTo bh.position < bh.schwarzschildRadius * 4.0 then
           (bh.calculateAccretionDiskColor ip).add
             ((Color.smul ⟨0.8, 0.9, 1.0⟩
                (1.0 / (1.0 + (hpos.distanceTo bh.position -
                  bh.schwarzschildRadius)))).smul 0.3)
         else bh.calculateAccretionDiskColor ip)
        (1.0 + 0.5 / (1.0 + hpos.distanceTo ip)) :=
  traceRayLoop_diskHit_color bh background RenderConfig.MAX_RAY_STEPS 0 origin direction
    0.0 0 ip hpos hexit

/-- Witness for C5 (amended): the ray from `(8,0,0)` towards `(0,-1,0)` over
a mass-1 hole at the origin hits the disk at `(8,0,0)` in the first
iteration (outside the `4·Rs` flare zone). -/
theorem C5_diskHit_color_witness :
    (traceRay (BlackHole.mk ⟨0, 0, 0⟩ 1) (fun _ => ⟨0, 0, 0⟩) ⟨8, 0, 0⟩
        ⟨0, -1, 0⟩).exitKind = ExitKind.diskHit ⟨8, 0, 0⟩ ⟨8, 0, 0⟩ ∧
    (traceRay (BlackHole.mk ⟨0, 0, 0⟩ 1) (fun _ => ⟨0, 0, 0⟩) ⟨8, 0, 0⟩
        ⟨0, -1, 0⟩).color =
      Color.smul
        (if Vec3.distanceTo ⟨8, 0, 0⟩ (BlackHole.mk ⟨0, 0, 0⟩ 1).position <
            (BlackHole.mk ⟨0, 0, 0⟩ 1).schwarzschildRadius * 4.0 then
           ((BlackHole.mk ⟨0, 0, 0⟩ 1).calculateAccretionDiskColor ⟨8, 0, 0⟩).add
             ((Color.smul ⟨0.8, 0.9, 1.0⟩
                (1.0 / (1.0 + (Vec3.distanceTo ⟨8, 0, 0⟩ (BlackHole.mk ⟨0, 0, 0⟩ 1).position -
                  (BlackHole.mk ⟨0, 0, 0⟩ 1).schwarzschildRadius)))).smul 0.3)
         else (BlackHole.mk ⟨0, 0, 0⟩ 1).calculateAccretionDiskColor ⟨8, 0, 0⟩)
        (1.0 + 0.5 / (1.0 + Vec3.distanceTo ⟨8, 0, 0⟩ (⟨8, 0, 0⟩ : Vec3))) := by
  have hs64 : Real.sqrt 64 = 8 := sqrt_eq_of_eq_sq (by norm_num) (by norm_num)
  have hrs : (BlackHole.mk ⟨0, 0, 0⟩ 1).schwarzschildRadius = 2 := by
    unfold BlackHole.schwarzschildRadius PhysicsConstants.SCHWARZSCHILD_MULTIPLIER
    norm_num
  have hd8 : Vec3.distanceTo ⟨8, 0, 0⟩ (BlackHole.mk ⟨0, 0, 0⟩ 1).position = 8 := by
    show Vec3.distanceTo ⟨8, 0, 0⟩ ⟨0, 0, 0⟩ = 8
    norm_num [Vec3.distanceTo, Vec3.sub, Vec3.length, hs64]
  have hd0 : Vec3.distanceTo ⟨8, 0, 0⟩ (⟨8, 0, 0⟩ : Vec3) = 0 := by
    norm_num [Vec3.distanceTo, Vec3.sub, Vec3.length, Real.sqrt_zero]
  have hhor : ¬ Vec3.distanceTo ⟨8, 0, 0⟩ (BlackHole.mk ⟨0, 0, 0⟩ 1).position <
      (BlackHole.mk ⟨0, 0, 0⟩ 1).schwarzschildRadius * 1.01 := by
    rw [hd8, hrs]
    norm_num
  have hI : (BlackHole.mk ⟨0, 0, 0⟩ 1).intersectsAccretionDisk ⟨8, 0, 0⟩ ⟨0, -1, 0⟩ =
      some ⟨8, 0, 0⟩ := by
    norm_num [BlackHole.intersectsAccretionDisk, Vec3.add, Vec3.smul,
      BlackHole.diskInnerRadius, BlackHole.diskOuterRadius, BlackHole.schwarzschildRadius,
      PhysicsConstants.DISK_INNER_MULTIPLIER, PhysicsConstants.DISK_OUTER_MULTIPLIER,
      PhysicsConstants.SCHWARZSCHILD_MULTIPLIER, hs64, Vec3.mk.injEq]
  have hstep : stepSizeFor (BlackHole.mk ⟨0, 0, 0⟩ 1)
      (Vec3.distanceTo ⟨8, 0, 0⟩ (BlackHole.mk ⟨0, 0, 0⟩ 1).position) =
      RenderConfig.ADAPTIVE_STEP_NEAR := by
    rw [hd8]
    unfold stepSizeFor BlackHole.schwarzschildRadius PhysicsConstants.SCHWARZSCHILD_MULTIPLIER
    norm_num
  have hc : Vec3.distanceTo ⟨8, 0, 0⟩ (⟨8, 0, 0⟩ : Vec3) <
      stepSizeFor (BlackHole.mk ⟨0, 0, 0⟩ 1)
        (Vec3.distanceTo ⟨8, 0, 0⟩ (BlackHole.mk ⟨0, 0, 0⟩ 1).position) * 2.0 := by
    rw [hd0, hstep]
    unfold RenderConfig.ADAPTIVE_STEP_NEAR
    norm_num
  have hC := closeDiskHit_eq_some (BlackHole.mk ⟨0, 0, 0⟩ 1) ⟨8, 0, 0⟩ ⟨0, -1, 0⟩ _
    ⟨8, 0, 0⟩ hI hc
  have heval := traceRayLoop_diskHit (BlackHole.mk ⟨0, 0, 0⟩ 1) (fun _ => ⟨0, 0, 0⟩) 499 0
    ⟨8, 0, 0⟩ ⟨0, -1, 0⟩ 0.0 0 ⟨8, 0, 0⟩ hhor hC
  have hexit : (traceRay (BlackHole.mk ⟨0, 0, 0⟩ 1) (fun _ => ⟨0, 0, 0⟩) ⟨8, 0, 0⟩
      ⟨0, -1, 0⟩).exitKind = ExitKind.diskHit ⟨8, 0, 0⟩ ⟨8, 0, 0⟩ := by
    unfold traceRay
    rw [show RenderConfig.MAX_RAY_STEPS = 499 + 1 from rfl, heval]
  exact ⟨hexit,
    C5_diskHit_color (BlackHole.mk ⟨0, 0, 0⟩ 1) (fun _ => ⟨0, 0, 0⟩) ⟨8, 0, 0⟩ ⟨0, -1, 0⟩
      ⟨8, 0, 0⟩ ⟨8, 0, 0⟩ hexit⟩

end
